import Mathlib

/-!
Verification development for the jsonref crate (src/lib.rs).

The development shallowly embeds the crate's data model and its recursive
dereferencing engine `JsonRef::deref` together with the entry points
`deref_value` and `deref_file`, and proves the behavioural claims about them.

Modelling conventions:
* `serde_json::Value` becomes the inductive `Json`; the crate uses the default
  `serde_json` object map (a `BTreeMap` ordered by key), which is modelled as an
  association list kept sorted by key: `alInsert` places a fresh key at its
  ordered position and overwrites an existing key in place, exactly as the
  `BTreeMap` does, and iteration order of a sorted list is the map's order.
* File system and network I/O are external collaborators: a `Loader` function
  maps an absolute identifier (for `http(s)` references) or a file path (for
  `file` references) to the parsed document, `none` standing for any I/O or
  JSON-parse failure.  `deref_file`'s reading of the root file itself and the
  canonicalization of its path happen before the modelled code runs, so
  `derefFile` receives the parsed root document and its canonical `file://`
  URL directly.
* The `url` crate is modelled by `Url` with the subset of `parse`/`join`
  semantics exercised by JSON Schema references: absolute URLs, fragment-only
  references (`#...`), rooted and relative path references.  Percent-encoding
  and normalization are not modelled.
* Rust recursion becomes fuel-indexed recursion: every recursion step of
  `JsonRef::deref` consumes one unit of fuel and exhaustion is reported as the
  distinguished outcome `RunErr.outOfFuel`, which the actual program cannot
  produce; a `panic!` (process abort) of the program is the distinguished
  outcome `RunErr.panicked`, kept apart from the recoverable `Error` values
  that the program returns to its caller.
-/

namespace Jsonref

/-- `serde_json::Value`: null, boolean, number, string, array, object.
Numbers are modelled as integers (no claim involves float arithmetic).
Object fields are kept sorted by key, mirroring the default `serde_json`
`Map` (a `BTreeMap<String, Value>`). -/
inductive Json where
  | null
  | bool (b : Bool)
  | num (n : Int)
  | str (s : String)
  | arr (xs : List Json)
  | obj (fields : List (String × Json))

/-- Byte-wise lexicographic order on strings as lists of characters, the order
of Rust's `Ord for String` restricted to the ASCII keys used here. -/
def charListLt : List Char → List Char → Bool
  | [], [] => false
  | [], _ :: _ => true
  | _ :: _, [] => false
  | a :: as, b :: bs =>
    if a.val < b.val then true
    else if b.val < a.val then false
    else charListLt as bs

/-- String order used by the `BTreeMap` model. -/
def strLtB (a b : String) : Bool := charListLt a.data b.data

/-- `BTreeMap::get`. -/
def alGet {α : Type} (k : String) : List (String × α) → Option α
  | [] => none
  | (k', v) :: rest => if k = k' then some v else alGet k rest

/-- `BTreeMap::insert`: overwrite an existing key in place, otherwise place the
new key at its ordered position. -/
def alInsert {α : Type} (k : String) (v : α) : List (String × α) → List (String × α)
  | [] => [(k, v)]
  | (k', v') :: rest =>
    if strLtB k k' then (k, v) :: (k', v') :: rest
    else if k = k' then (k, v) :: rest
    else (k', v') :: alInsert k v rest

/-- `BTreeMap::remove` (the removed value is recovered by `alGet`). -/
def alRemove {α : Type} (k : String) : List (String × α) → List (String × α)
  | [] => []
  | (k', v') :: rest => if k = k' then rest else (k', v') :: alRemove k rest

/-- `Value::get` on an object, `None` on every other variant. -/
def Json.get (key : String) : Json → Option Json
  | .obj l => alGet key l
  | _ => none

/-- Whether a value is an object (`Value::as_object` succeeding). -/
def Json.isObj : Json → Bool
  | .obj _ => true
  | _ => false

/-! JSON pointer lookup, `serde_json::Value::pointer` (used for `$ref`
fragments at src/lib.rs line 384). -/

/-- Token unescaping of `Value::pointer`: `~1` becomes `/` and `~0` becomes
`~`. -/
def unescapeToken : List Char → List Char
  | [] => []
  | '~' :: '1' :: rest => '/' :: unescapeToken rest
  | '~' :: '0' :: rest => '~' :: unescapeToken rest
  | c :: rest => c :: unescapeToken rest

/-- Split a character list at every occurrence of `c` (Rust `str::split`). -/
def splitChar (c : Char) : List Char → List (List Char)
  | [] => [[]]
  | x :: xs =>
    if x = c then [] :: splitChar c xs
    else
      match splitChar c xs with
      | [] => [[x]]
      | g :: gs => (x :: g) :: gs

/-- Numeric value of a digit list. -/
def digitsVal (l : List Char) : Nat :=
  l.foldl (fun acc c => acc * 10 + (c.toNat - 48)) 0

/-- `serde_json`'s `parse_index`: no leading `+`, no superfluous leading zero,
digits only. -/
def parseIndex (l : List Char) : Option Nat :=
  match l with
  | [] => none
  | c :: rest =>
    if c = '+' then none
    else if c = '0' ∧ rest ≠ [] then none
    else if (c :: rest).all Char.isDigit then some (digitsVal (c :: rest))
    else none

/-- Walk the pointer tokens: objects by key, arrays by parsed index, scalars
fail. -/
def pointerGo : Json → List String → Option Json
  | j, [] => some j
  | .obj l, t :: rest =>
    match alGet t l with
    | some v => pointerGo v rest
    | none => none
  | .arr xs, t :: rest =>
    match parseIndex t.data with
    | some i =>
      match xs.get? i with
      | some v => pointerGo v rest
      | none => none
    | none => none
  | _, _ :: _ => none

/-- `Value::pointer`: empty pointer addresses the whole document, otherwise the
pointer must start with `/` and its `/`-separated tokens are unescaped and
walked. -/
def Json.pointer (j : Json) (p : String) : Option Json :=
  match p.data with
  | [] => some j
  | '/' :: _ =>
    pointerGo j (((splitChar '/' p.data).tail).map (fun t => String.mk (unescapeToken t)))
  | _ => none

/-! URL model: the subset of the `url` crate used by `JsonRef::deref`. -/

/-- Split at the first occurrence of `c`, keeping what follows it (if
anything). -/
def splitAtFirst (c : Char) : List Char → List Char × Option (List Char)
  | [] => ([], none)
  | x :: xs =>
    if x = c then ([], some xs)
    else
      match splitAtFirst c xs with
      | (pre, rest) => (x :: pre, rest)

/-- Does the character list start with the given pattern? (`str::starts_with`.) -/
def charsStartsWith : List Char → List Char → Bool
  | _, [] => true
  | [], _ :: _ => false
  | c :: cs, p :: ps => c = p && charsStartsWith cs ps

/-- `str::starts_with` on strings. -/
def strStartsWith (s pat : String) : Bool := charsStartsWith s.data pat.data

/-- An absolute URL: scheme, the part between `:` and `#` (authority plus
path), and an optional fragment. -/
structure Url where
  scheme : String
  rest : String
  fragment : Option String

/-- `Url::parse`, restricted to syntactic scheme detection: the input must have
an alphabetic scheme before a `:`; the fragment is whatever follows the first
`#`.  Relative references (no scheme) fail to parse, as in the `url` crate. -/
def Url.parse (s : String) : Option Url :=
  match splitAtFirst '#' s.data with
  | (core, frag) =>
    match splitAtFirst ':' core with
    | (schemeChars, some restChars) =>
      if schemeChars ≠ [] ∧ schemeChars.all Char.isAlpha then
        some ⟨String.mk schemeChars, String.mk restChars, frag.map String.mk⟩
      else none
    | (_, none) => none

/-- `Url::to_string`: scheme, `:`, authority-and-path, then `#fragment` when a
fragment is present (an empty fragment still prints its `#`). -/
def Url.toString (u : Url) : String :=
  u.scheme ++ ":" ++ u.rest ++
    (match u.fragment with
     | none => ""
     | some f => "#" ++ f)

/-- `Url::path`: strip the `//authority` prefix when present. -/
def Url.path (u : Url) : String :=
  match u.rest.data with
  | '/' :: '/' :: rest => String.mk (rest.dropWhile (fun c => c ≠ '/'))
  | _ => u.rest

/-- The `//authority` prefix of a URL's rest, empty when there is none. -/
def Url.authority (u : Url) : String :=
  match u.rest.data with
  | '/' :: '/' :: rest => String.mk ('/' :: '/' :: rest.takeWhile (fun c => c ≠ '/'))
  | _ => ""

/-- Keep everything up to and including the last `/`. -/
def dirnameChars (l : List Char) : List Char :=
  (l.reverse.dropWhile (fun c => c ≠ '/')).reverse

/-- `Url::join` (RFC 3986 resolution restricted to the reference shapes that
JSON Schema `$ref` strings take): an absolute reference replaces the base; a
fragment-only reference keeps the base location and replaces the fragment; a
rooted path replaces the base path; a relative path replaces the base's last
segment.  The base's fragment is never inherited. -/
def Url.join (base : Url) (r : String) : Option Url :=
  match Url.parse r with
  | some u => some u
  | none =>
    match splitAtFirst '#' r.data with
    | (rpath, rfrag) =>
      if rpath = [] then
        some { base with fragment := rfrag.map String.mk }
      else if charsStartsWith rpath ['/'] then
        some { scheme := base.scheme, rest := base.authority ++ String.mk rpath,
               fragment := rfrag.map String.mk }
      else
        some { scheme := base.scheme,
               rest := String.mk (dirnameChars base.rest.data) ++ String.mk rpath,
               fragment := rfrag.map String.mk }

/-! The error taxonomy (src/lib.rs lines 50-75) and run outcomes. -/

/-- The crate's `Error` enum.  Only the context strings relevant to the claims
are carried; for `JsonPointerNotFound` the `pointer` payload is the formatted
message of src/lib.rs line 385, which names the reference and the fragment. -/
inductive Error where
  | schemaFromFile (filename : String)
  | schemaFromUrl (url : String)
  | urlParseError (url : String)
  | schemaNotJson (url : String)
  | schemaNotJsonSerde (url : String)
  | jsonPointerNotFound (pointer : String)
  | jsonRefError

/-- Outcome of running the modelled code: a recoverable `Error` returned to
the caller, a process abort (`panic!` / `unwrap` on `None`), or exhaustion of
the model's fuel (an artifact of the embedding, unreachable for sufficient
fuel). -/
inductive RunErr where
  | err (e : Error)
  | panicked (msg : String)
  | outOfFuel

/-- Mutable state threaded through one resolution: the schema cache
(`self.schema_cache`, keyed by the fragment-stripped reference URL), the log of
Source Loader invocations (which identifier was fetched, in order; the model's
observation point for the caching claims), and the definitions accumulator
(the `definitions` object passed by `&mut` through `deref`). -/
structure St where
  cache : List (String × Json)
  loads : List String
  defs : List (String × Json)

/-- Configuration: the optional `reference_key` (src/lib.rs line 176). -/
structure Cfg where
  referenceKey : Option String

/-- The external Source Loader: parsed document by identifier/path, `none` for
any I/O or parse failure. -/
def Loader : Type := String → Option Json

/-- The `$id` override of src/lib.rs lines 316-321: an object whose `$id`
holds a string replaces the base id for this node and its descendants. -/
def newIdOf (value : Json) (id : String) : String :=
  match Json.get "$id" value with
  | some (Json.str s) => s
  | _ => id

/-- Merging one `definitions` object into the accumulator (src/lib.rs lines
328-333): when the removed value is an object, its entries are inserted one by
one, later entries overwriting earlier ones; any other value is dropped. -/
def mergeDefs (defsVal : Json) (st : St) : St :=
  match defsVal with
  | Json.obj dl => { st with defs := dl.foldl (fun acc kv => alInsert kv.1 kv.2 acc) st.defs }
  | _ => st

/-- The definitions-extraction step of src/lib.rs lines 323-334: if the object
has a `definitions` key it is removed and merged into the accumulator. -/
def extractDefs (l : List (String × Json)) (st : St) : List (String × Json) × St :=
  match alGet "definitions" l with
  | some defsVal => (alRemove "definitions" l, mergeDefs defsVal st)
  | none => (l, st)

/-- The schema-obtaining step of src/lib.rs lines 349-375: consult the cache
under the fragment-stripped URL; on a miss dispatch on the scheme prefix of
that string — `http` fetches by URL, `file` opens the URL's path, anything
else hits `panic!("need url to be a file or a http based url")`.  Every Source
Loader invocation is logged under the fragment-stripped identifier. -/
def fetchSchema (L : Loader) (refNoFragment : String) (pathArg : String) (st : St) :
    Except RunErr (Json × St) :=
  match alGet refNoFragment st.cache with
  | some cachedSchema => .ok (cachedSchema, st)
  | none =>
    if strStartsWith refNoFragment "http" then
      match L refNoFragment with
      | some j => .ok (j, { st with loads := st.loads ++ [refNoFragment] })
      | none => .error (.err (.schemaFromUrl refNoFragment))
    else if strStartsWith refNoFragment "file" then
      match L pathArg with
      | some j => .ok (j, { st with loads := st.loads ++ [refNoFragment] })
      | none => .error (.err (.schemaFromFile refNoFragment))
    else .error (.panicked "need url to be a file or a http based url")

/-- The cache-population step of src/lib.rs lines 377-380: insert the fetched
schema unless the key is already present. -/
def cacheStore (refNoFragment : String) (schema : Json) (st : St) : St :=
  if (alGet refNoFragment st.cache).isSome then st
  else { st with cache := alInsert refNoFragment schema st.cache }

/-- The fragment-resolution step of src/lib.rs lines 382-387: a fragment is
resolved as a JSON pointer against the whole loaded document, failing with
`JsonPointerNotFound` whose message names the reference string and the
fragment. -/
def resolveFragment (refString : String) (fragment : Option String) (schema : Json) :
    Except RunErr Json :=
  match fragment with
  | some frag =>
    match Json.pointer schema frag with
    | some s => .ok s
    | none =>
      .error (.err (.jsonPointerNotFound
        ("ref `" ++ refString ++ "` can not be resolved as pointer `" ++ frag ++
         "` can not be found in the schema")))
  | none => .ok schema

/-- One traversal of the object's values (src/lib.rs lines 407-411), calling
the given resolver on each value in map order with the current base id and
used-refs. -/
def derefFieldsGo
    (node : Json → String → List String → St → Except RunErr (Json × St)) :
    List (String × Json) → String → List String → St →
    Except RunErr (List (String × Json) × St)
  | [], _, _, st => .ok ([], st)
  | (k, v) :: rest, newId, usedRefs, st =>
    match node v newId usedRefs st with
    | .error e => .error e
    | .ok (v2, st2) =>
      match derefFieldsGo node rest newId usedRefs st2 with
      | .error e => .error e
      | .ok (rest2, st3) => .ok ((k, v2) :: rest2, st3)

/-- The `$ref`-substitution branch of src/lib.rs lines 337-403, entered with
the node's remaining fields `l` (the `$ref` key already removed) and the
reference string.  Steps in source order: URL-parse the base id, join the
reference onto it, strip the fragment for the cache key, obtain the schema
(cache or Source Loader), populate the cache, resolve the fragment, then the
cycle guard — if the fully-qualified reference URL is already in `used_refs`
the function returns the node as it stands, without substitution or descent;
otherwise the fetched schema is recursively resolved with the extended
used-refs and the fragment-stripped URL as its base id, the node is replaced
by it, the pre-substitution content is stored under `reference_key` when one
is configured, and finally the replaced node's values are traversed again with
the original base id and used-refs. -/
def derefRefBody (L : Loader) (cfg : Cfg)
    (node : Json → String → List String → St → Except RunErr (Json × St))
    (l : List (String × Json)) (refString newId : String) (usedRefs : List String)
    (st : St) : Except RunErr (Json × St) :=
  match Url.parse newId with
  | none => .error (.err (.urlParseError newId))
  | some idUrl =>
    match Url.join idUrl refString with
    | none => .error (.err (.urlParseError refString))
    | some refUrl =>
      match fetchSchema L { refUrl with fragment := none }.toString
          { refUrl with fragment := none }.path st with
      | .error e => .error e
      | .ok (schema0, st1) =>
        match cacheStore { refUrl with fragment := none }.toString schema0 st1 with
        | st2 =>
          match resolveFragment refString refUrl.fragment schema0 with
          | .error e => .error e
          | .ok schema =>
            if refUrl.toString ∈ usedRefs then .ok (Json.obj l, st2)
            else
              match node schema { refUrl with fragment := none }.toString
                  (usedRefs ++ [refUrl.toString]) st2 with
              | .error e => .error e
              | .ok (schema2, st3) =>
                match
                  (match cfg.referenceKey, schema2 with
                   | some rk, Json.obj nl => Json.obj (alInsert rk (Json.obj l) nl)
                   | _, _ => schema2) with
                | Json.obj l2 =>
                  match derefFieldsGo node l2 newId usedRefs st3 with
                  | .error e => .error e
                  | .ok (l3, st4) => .ok (Json.obj l3, st4)
                | other => .ok (other, st3)

/-- One step of `JsonRef::deref` (src/lib.rs lines 309-413) given the resolver
for the recursive occurrences: compute the `$id` override, and for object
nodes extract `definitions`, remove a `$ref` key, substitute when its value is
a string, otherwise traverse the remaining values; non-objects are returned
unchanged. -/
def derefNodeBody (L : Loader) (cfg : Cfg)
    (node : Json → String → List String → St → Except RunErr (Json × St))
    (value : Json) (id : String) (usedRefs : List String) (st : St) :
    Except RunErr (Json × St) :=
  match value with
  | Json.obj l =>
    match extractDefs l st with
    | (l2, st2) =>
      match alGet "$ref" l2 with
      | some (Json.str refString) =>
        derefRefBody L cfg node (alRemove "$ref" l2) refString (newIdOf (Json.obj l) id)
          usedRefs st2
      | some _ =>
        match derefFieldsGo node (alRemove "$ref" l2) (newIdOf (Json.obj l) id) usedRefs st2 with
        | .error e => .error e
        | .ok (l3, st3) => .ok (Json.obj l3, st3)
      | none =>
        match derefFieldsGo node l2 (newIdOf (Json.obj l) id) usedRefs st2 with
        | .error e => .error e
        | .ok (l3, st3) => .ok (Json.obj l3, st3)
  | other => .ok (other, st)

/-- Fuel-indexed resolver: `derefFuel L cfg fuel` is `JsonRef::deref` allowed
`fuel` nested recursion steps; fuel `0` is the exhaustion outcome. -/
def derefFuel (L : Loader) (cfg : Cfg) :
    Nat → Json → String → List String → St → Except RunErr (Json × St)
  | 0 => fun _ _ _ _ => .error .outOfFuel
  | fuel + 1 => derefNodeBody L cfg (derefFuel L cfg fuel)

/-- `JsonRef::deref_value` (src/lib.rs lines 224-238): synthesize the anonymous
`file://`-URL from the working directory, cache the document under it, and
resolve in place with empty used-refs and a fresh definitions accumulator.  The
working directory string and the fuel are parameters of the model. -/
def derefValue (L : Loader) (cfg : Cfg) (fuel : Nat) (cwd : String) (value : Json) :
    Except RunErr (Json × St) :=
  derefFuel L cfg fuel value ("file://" ++ cwd ++ "/anon.json") []
    { cache := alInsert ("file://" ++ cwd ++ "/anon.json") value [], loads := [], defs := [] }

/-- `JsonRef::deref_file` (src/lib.rs lines 288-307) after the root file has
been read, parsed to `value` and its path canonicalized to the `file://` URL
`url`: cache the document, resolve it, then reattach the accumulated
definitions under the root's `definitions` key — via `as_object_mut().unwrap()`,
which panics when the resolved root is not an object. -/
def derefFile (L : Loader) (cfg : Cfg) (fuel : Nat) (url : String) (value : Json) :
    Except RunErr (Json × St) :=
  match derefFuel L cfg fuel value url []
      { cache := alInsert url value [], loads := [], defs := [] } with
  | .error e => .error e
  | .ok (v, st) =>
    match v with
    | Json.obj l => .ok (Json.obj (alInsert "definitions" (Json.obj st.defs) l), st)
    | _ => .error (.panicked "called Option.unwrap on a None value")

/-! Predicates about documents and resolution state. -/

/-- The document contains none of the keys in `bad` anywhere in its tree. -/
inductive AvoidsKeys (bad : List String) : Json → Prop where
  | null : AvoidsKeys bad .null
  | bool (b : Bool) : AvoidsKeys bad (.bool b)
  | num (n : Int) : AvoidsKeys bad (.num n)
  | str (s : String) : AvoidsKeys bad (.str s)
  | arr (xs : List Json) (h : ∀ v ∈ xs, AvoidsKeys bad v) : AvoidsKeys bad (.arr xs)
  | obj (l : List (String × Json)) (hk : ∀ kv ∈ l, kv.1 ∉ bad)
      (hv : ∀ kv ∈ l, AvoidsKeys bad kv.2) : AvoidsKeys bad (.obj l)

/-- The caching invariant of one resolution session: no identifier has been
loaded twice, and every loaded identifier is present in the schema cache. -/
def CacheInv (st : St) : Prop :=
  st.loads.Nodup ∧ ∀ u ∈ st.loads, (alGet u st.cache).isSome

/-! Association-list lemmas. -/

theorem alGet_none_of_forbidden {α : Type} (k : String) (l : List (String × α))
    (h : ∀ kv ∈ l, kv.1 ≠ k) : alGet k l = none := by
  induction l with
  | nil => rfl
  | cons kv rest ih =>
    simp only [alGet]
    rw [if_neg fun he => h kv (List.mem_cons_self _ _) he.symm]
    exact ih fun kv' h' => h kv' (List.mem_cons_of_mem _ h')

theorem alGet_alInsert {α : Type} (k k' : String) (v : α) (l : List (String × α)) :
    alGet k (alInsert k' v l) = if k = k' then some v else alGet k l := by
  induction l with
  | nil => simp [alInsert, alGet]
  | cons kv rest ih =>
    obtain ⟨k1, v1⟩ := kv
    simp only [alInsert]
    split
    · simp only [alGet]
    · split
      · next heq => subst heq; by_cases hk : k = k' <;> simp [alGet, hk]
      · next hne =>
        by_cases hk : k = k1
        · have hkk : k1 ≠ k' := fun h => hne h.symm
          simp [alGet, hk, hkk]
        · simp [alGet, hk, ih]

theorem alGet_alInsert_self {α : Type} (k : String) (v : α) (l : List (String × α)) :
    alGet k (alInsert k v l) = some v := by
  simp [alGet_alInsert]

theorem alGet_isSome_alInsert {α : Type} (k k' : String) (v : α) (l : List (String × α))
    (h : (alGet k l).isSome) : (alGet k (alInsert k' v l)).isSome := by
  rw [alGet_alInsert]
  split
  · rfl
  · exact h

/-! Resolution of a document free of `$ref` and `definitions` keys is the
identity and leaves the resolution state untouched (claim C2, amended). -/

theorem derefFieldsGo_identity
    (node : Json → String → List String → St → Except RunErr (Json × St))
    (hnode : ∀ v id u st out, AvoidsKeys ["$ref", "definitions"] v →
      node v id u st = .ok out → out = (v, st)) :
    ∀ l id u st out, (∀ kv ∈ l, AvoidsKeys ["$ref", "definitions"] kv.2) →
      derefFieldsGo node l id u st = .ok out → out = (l, st) := by
  intro l
  induction l with
  | nil =>
    intro id u st out _ h
    simp only [derefFieldsGo] at h
    exact (Except.ok.inj h).symm
  | cons kv rest ih =>
    intro id u st out hmem h
    obtain ⟨k, v⟩ := kv
    simp only [derefFieldsGo] at h
    cases hn : node v id u st with
    | error e => simp only [hn] at h; cases h
    | ok p =>
      obtain ⟨v2, st2⟩ := p
      simp only [hn] at h
      have hp := hnode v id u st (v2, st2) (hmem (k, v) (List.mem_cons_self _ _)) hn
      have hv2 : v2 = v := congrArg Prod.fst hp
      have hst2 : st2 = st := congrArg Prod.snd hp
      rw [hv2, hst2] at h
      cases hr : derefFieldsGo node rest id u st with
      | error e => simp only [hr] at h; cases h
      | ok q =>
        obtain ⟨rest2, st3⟩ := q
        simp only [hr] at h
        have hq := ih id u st (rest2, st3)
          (fun kv' h' => hmem kv' (List.mem_cons_of_mem _ h')) hr
        have hr2 : rest2 = rest := congrArg Prod.fst hq
        have hst3 : st3 = st := congrArg Prod.snd hq
        rw [hr2, hst3] at h
        exact (Except.ok.inj h).symm

theorem derefNodeBody_identity (L : Loader) (cfg : Cfg)
    (node : Json → String → List String → St → Except RunErr (Json × St))
    (hnode : ∀ v id u st out, AvoidsKeys ["$ref", "definitions"] v →
      node v id u st = .ok out → out = (v, st)) :
    ∀ v id u st out, AvoidsKeys ["$ref", "definitions"] v →
      derefNodeBody L cfg node v id u st = .ok out → out = (v, st) := by
  intro v id u st out hav h
  cases hav with
  | null => exact (Except.ok.inj h).symm
  | bool b => exact (Except.ok.inj h).symm
  | num n => exact (Except.ok.inj h).symm
  | str s => exact (Except.ok.inj h).symm
  | arr xs hx => exact (Except.ok.inj h).symm
  | obj l hk hv =>
    have hdefs : alGet "definitions" l = none :=
      alGet_none_of_forbidden _ _ fun kv hm he => hk kv hm (by simp [he])
    have href : alGet "$ref" l = none :=
      alGet_none_of_forbidden _ _ fun kv hm he => hk kv hm (by simp [he])
    simp only [derefNodeBody, extractDefs, hdefs, href] at h
    cases hf : derefFieldsGo node l (newIdOf (Json.obj l) id) u st with
    | error e => simp only [hf] at h; cases h
    | ok p =>
      obtain ⟨l3, st3⟩ := p
      simp only [hf] at h
      have hq := derefFieldsGo_identity node hnode l (newIdOf (Json.obj l) id) u st (l3, st3) hv hf
      have hl3 : l3 = l := congrArg Prod.fst hq
      have hst3 : st3 = st := congrArg Prod.snd hq
      rw [hl3, hst3] at h
      exact (Except.ok.inj h).symm

theorem derefFuel_identity (L : Loader) (cfg : Cfg) : ∀ fuel v id u st out,
    AvoidsKeys ["$ref", "definitions"] v →
    derefFuel L cfg fuel v id u st = .ok out → out = (v, st) := by
  intro fuel
  induction fuel with
  | zero => intro v id u st out _ h; cases h
  | succ f ih =>
    intro v id u st out hav h
    exact derefNodeBody_identity L cfg (derefFuel L cfg f) ih v id u st out hav h

/-! The cache discipline of `JsonRef::deref` (claim C6): the cache is consulted
before every load and populated after every load, so within one resolution no
fragment-stripped identifier is ever loaded twice. -/

theorem cacheInv_mergeDefs (dv : Json) (st : St) (h : CacheInv st) :
    CacheInv (mergeDefs dv st) := by
  cases dv <;> exact h

theorem cacheInv_extractDefs (l : List (String × Json)) (st : St) (h : CacheInv st) :
    CacheInv (extractDefs l st).2 := by
  unfold extractDefs
  cases alGet "definitions" l with
  | none => exact h
  | some dv => exact cacheInv_mergeDefs dv st h

theorem cacheInv_load (st : St) (rnf : String) (j : Json)
    (hc : alGet rnf st.cache = none) (hinv : CacheInv st) :
    CacheInv (cacheStore rnf j { st with loads := st.loads ++ [rnf] }) := by
  have hrnf : rnf ∉ st.loads := fun hm => by
    have hs := hinv.2 rnf hm
    rw [hc] at hs
    simp at hs
  unfold cacheStore
  simp only [hc, Option.isSome_none, Bool.false_eq_true, if_false]
  constructor
  · exact List.nodup_append.2 ⟨hinv.1, List.nodup_singleton _,
      fun a ha hb => by
        rw [List.mem_singleton.1 hb] at ha
        exact hrnf ha⟩
  · intro u hu
    rcases List.mem_append.1 hu with h1 | h2
    · exact alGet_isSome_alInsert _ _ _ _ (hinv.2 u h1)
    · rw [List.mem_singleton.1 h2, alGet_alInsert_self]
      rfl

theorem cacheInv_fetchStore (L : Loader) (rnf p : String) (st : St) (j : Json) (st1 : St)
    (h : fetchSchema L rnf p st = .ok (j, st1)) (hinv : CacheInv st) :
    CacheInv (cacheStore rnf j st1) := by
  unfold fetchSchema at h
  cases hc : alGet rnf st.cache with
  | some s =>
    simp only [hc] at h
    have hp := Except.ok.inj h
    have hst : st = st1 := congrArg Prod.snd hp
    unfold cacheStore
    rw [← hst, hc]
    simp only [Option.isSome_some, if_true]
    exact hinv
  | none =>
    simp only [hc] at h
    split at h
    · cases hl : L rnf with
      | none => simp only [hl] at h; cases h
      | some j' =>
        simp only [hl] at h
        have hp := Except.ok.inj h
        have hj : j' = j := congrArg Prod.fst hp
        have hst : ({ st with loads := st.loads ++ [rnf] } : St) = st1 := congrArg Prod.snd hp
        rw [← hst]
        exact cacheInv_load st rnf j hc hinv
    · split at h
      · cases hl : L p with
        | none => simp only [hl] at h; cases h
        | some j' =>
          simp only [hl] at h
          have hp := Except.ok.inj h
          have hst : ({ st with loads := st.loads ++ [rnf] } : St) = st1 := congrArg Prod.snd hp
          rw [← hst]
          exact cacheInv_load st rnf j hc hinv
      · cases h

theorem derefFieldsGo_cacheInv
    (node : Json → String → List String → St → Except RunErr (Json × St))
    (hnode : ∀ v id u st out, node v id u st = .ok out → CacheInv st → CacheInv out.2) :
    ∀ l id u st out, derefFieldsGo node l id u st = .ok out → CacheInv st → CacheInv out.2 := by
  intro l
  induction l with
  | nil =>
    intro id u st out h hinv
    rw [← Except.ok.inj h]
    exact hinv
  | cons kv rest ih =>
    intro id u st out h hinv
    obtain ⟨k, v⟩ := kv
    simp only [derefFieldsGo] at h
    cases hn : node v id u st with
    | error e => simp only [hn] at h; cases h
    | ok p =>
      obtain ⟨v2, st2⟩ := p
      simp only [hn] at h
      have hinv2 := hnode v id u st (v2, st2) hn hinv
      cases hr : derefFieldsGo node rest id u st2 with
      | error e => simp only [hr] at h; cases h
      | ok q =>
        obtain ⟨rest2, st3⟩ := q
        simp only [hr] at h
        have hinv3 := ih id u st2 (rest2, st3) hr hinv2
        rw [← Except.ok.inj h]
        exact hinv3

theorem derefRefBody_cacheInv (L : Loader) (cfg : Cfg)
    (node : Json → String → List String → St → Except RunErr (Json × St))
    (hnode : ∀ v id u st out, node v id u st = .ok out → CacheInv st → CacheInv out.2) :
    ∀ l rs nid u st out, derefRefBody L cfg node l rs nid u st = .ok out →
      CacheInv st → CacheInv out.2 := by
  intro l rs nid u st out h hinv
  unfold derefRefBody at h
  cases hp : Url.parse nid with
  | none => simp only [hp] at h; cases h
  | some idUrl =>
    simp only [hp] at h
    cases hj : Url.join idUrl rs with
    | none => simp only [hj] at h; cases h
    | some refUrl =>
      simp only [hj] at h
      cases hf : fetchSchema L { refUrl with fragment := none }.toString
          { refUrl with fragment := none }.path st with
      | error e => simp only [hf] at h; cases h
      | ok p =>
        obtain ⟨schema0, st1⟩ := p
        simp only [hf] at h
        have hinv2 : CacheInv (cacheStore { refUrl with fragment := none }.toString schema0 st1) :=
          cacheInv_fetchStore L _ _ st schema0 st1 hf hinv
        cases hr : resolveFragment rs refUrl.fragment schema0 with
        | error e => simp only [hr] at h; cases h
        | ok schema =>
          simp only [hr] at h
          by_cases hmem : refUrl.toString ∈ u
          · rw [if_pos hmem] at h
            rw [← Except.ok.inj h]
            exact hinv2
          · rw [if_neg hmem] at h
            cases hn : node schema { refUrl with fragment := none }.toString
                (u ++ [refUrl.toString])
                (cacheStore { refUrl with fragment := none }.toString schema0 st1) with
            | error e => simp only [hn] at h; cases h
            | ok q =>
              obtain ⟨schema2, st3⟩ := q
              simp only [hn] at h
              have hinv3 := hnode _ _ _ _ _ hn hinv2
              cases hw : (match cfg.referenceKey, schema2 with
                  | some rk, Json.obj nl => Json.obj (alInsert rk (Json.obj l) nl)
                  | _, _ => schema2) with
              | obj l2 =>
                simp only [hw] at h
                cases hg : derefFieldsGo node l2 nid u st3 with
                | error e => simp only [hg] at h; cases h
                | ok r =>
                  obtain ⟨l3, st4⟩ := r
                  simp only [hg] at h
                  have hinv4 := derefFieldsGo_cacheInv node hnode l2 nid u st3 (l3, st4) hg hinv3
                  rw [← Except.ok.inj h]
                  exact hinv4
              | null => simp only [hw] at h; rw [← Except.ok.inj h]; exact hinv3
              | bool b => simp only [hw] at h; rw [← Except.ok.inj h]; exact hinv3
              | num n => simp only [hw] at h; rw [← Except.ok.inj h]; exact hinv3
              | str s => simp only [hw] at h; rw [← Except.ok.inj h]; exact hinv3
              | arr xs => simp only [hw] at h; rw [← Except.ok.inj h]; exact hinv3

theorem derefNodeBody_cacheInv (L : Loader) (cfg : Cfg)
    (node : Json → String → List String → St → Except RunErr (Json × St))
    (hnode : ∀ v id u st out, node v id u st = .ok out → CacheInv st → CacheInv out.2) :
    ∀ v id u st out, derefNodeBody L cfg node v id u st = .ok out →
      CacheInv st → CacheInv out.2 := by
  intro v id u st out h hinv
  cases v with
  | null => rw [← Except.ok.inj h]; exact hinv
  | bool b => rw [← Except.ok.inj h]; exact hinv
  | num n => rw [← Except.ok.inj h]; exact hinv
  | str s => rw [← Except.ok.inj h]; exact hinv
  | arr xs => rw [← Except.ok.inj h]; exact hinv
  | obj l =>
    unfold derefNodeBody at h
    rcases hed : extractDefs l st with ⟨l2, st2⟩
    simp only [hed] at h
    have hinv2 : CacheInv st2 := by
      have hq := cacheInv_extractDefs l st hinv
      rw [hed] at hq
      exact hq
    cases hrg : alGet "$ref" l2 with
    | none =>
      simp only [hrg] at h
      cases hg : derefFieldsGo node l2 (newIdOf (Json.obj l) id) u st2 with
      | error e => simp only [hg] at h; cases h
      | ok r =>
        obtain ⟨l3, st3⟩ := r
        simp only [hg] at h
        have hinv3 := derefFieldsGo_cacheInv node hnode l2 _ u st2 (l3, st3) hg hinv2
        rw [← Except.ok.inj h]
        exact hinv3
    | some rv =>
      cases rv with
      | str rs =>
        simp only [hrg] at h
        exact derefRefBody_cacheInv L cfg node hnode (alRemove "$ref" l2) rs
          (newIdOf (Json.obj l) id) u st2 out h hinv2
      | null =>
        simp only [hrg] at h
        cases hg : derefFieldsGo node (alRemove "$ref" l2) (newIdOf (Json.obj l) id) u st2 with
        | error e => simp only [hg] at h; cases h
        | ok r =>
          obtain ⟨l3, st3⟩ := r
          simp only [hg] at h
          have hinv3 := derefFieldsGo_cacheInv node hnode _ _ u st2 (l3, st3) hg hinv2
          rw [← Except.ok.inj h]
          exact hinv3
      | bool b =>
        simp only [hrg] at h
        cases hg : derefFieldsGo node (alRemove "$ref" l2) (newIdOf (Json.obj l) id) u st2 with
        | error e => simp only [hg] at h; cases h
        | ok r =>
          obtain ⟨l3, st3⟩ := r
          simp only [hg] at h
          have hinv3 := derefFieldsGo_cacheInv node hnode _ _ u st2 (l3, st3) hg hinv2
          rw [← Except.ok.inj h]
          exact hinv3
      | num n =>
        simp only [hrg] at h
        cases hg : derefFieldsGo node (alRemove "$ref" l2) (newIdOf (Json.obj l) id) u st2 with
        | error e => simp only [hg] at h; cases h
        | ok r =>
          obtain ⟨l3, st3⟩ := r
          simp only [hg] at h
          have hinv3 := derefFieldsGo_cacheInv node hnode _ _ u st2 (l3, st3) hg hinv2
          rw [← Except.ok.inj h]
          exact hinv3
      | arr xs =>
        simp only [hrg] at h
        cases hg : derefFieldsGo node (alRemove "$ref" l2) (newIdOf (Json.obj l) id) u st2 with
        | error e => simp only [hg] at h; cases h
        | ok r =>
          obtain ⟨l3, st3⟩ := r
          simp only [hg] at h
          have hinv3 := derefFieldsGo_cacheInv node hnode _ _ u st2 (l3, st3) hg hinv2
          rw [← Except.ok.inj h]
          exact hinv3
      | obj ol =>
        simp only [hrg] at h
        cases hg : derefFieldsGo node (alRemove "$ref" l2) (newIdOf (Json.obj l) id) u st2 with
        | error e => simp only [hg] at h; cases h
        | ok r =>
          obtain ⟨l3, st3⟩ := r
          simp only [hg] at h
          have hinv3 := derefFieldsGo_cacheInv node hnode _ _ u st2 (l3, st3) hg hinv2
          rw [← Except.ok.inj h]
          exact hinv3

theorem derefFuel_cacheInv (L : Loader) (cfg : Cfg) : ∀ fuel v id u st out,
    derefFuel L cfg fuel v id u st = .ok out → CacheInv st → CacheInv out.2 := by
  intro fuel
  induction fuel with
  | zero => intro v id u st out h _; cases h
  | succ f ih =>
    intro v id u st out h hinv
    exact derefNodeBody_cacheInv L cfg (derefFuel L cfg f) ih v id u st out h hinv

/-! Concrete loaders, configurations and documents used by the claims. -/

/-- A world with no loadable documents (every fetch fails). -/
def noDocs : Loader := fun _ => none

/-- Default configuration: no `reference_key`. -/
def cfg0 : Cfg := ⟨none⟩

/-- Configuration with `reference_key` set to `__reference__`. -/
def cfgRef : Cfg := ⟨some "__reference__"⟩

/-- Scenario A input (spec section 8). -/
def docA : Json := .obj [("properties", .obj [
  ("prop1", .obj [("title", .str "name")]),
  ("prop2", .obj [("$ref", .str "#/properties/prop1")])])]

/-- Scenario B input (spec section 8). -/
def docB : Json := .obj [("properties", .obj [
  ("prop1", .obj [("title", .str "name")]),
  ("prop2", .obj [("$ref", .str "#/properties/prop1"), ("title", .str "old_title")])])]

/-- Root self-reference input (the crate's `json_with_recursion` test). -/
def docRec : Json := .obj [("properties", .obj [("prop1", .obj [("$ref", .str "#")])])]

/-- A document with no `$ref` and no `definitions` anywhere (the crate's
`json_no_refs` test). -/
def docNoRef : Json := .obj [("properties", .obj [("prop1", .obj [("title", .str "proptitle")])])]

/-- A `$ref`-free document carrying a `definitions` object. -/
def docDefsOnly : Json := .obj [("definitions", .obj [("a", .num 1)])]

/-- External document for Scenario C. -/
def subDoc : Json := .obj [("t", .str "x")]

/-- A world holding exactly one external document, at
`http://ex.com/sub.json`. -/
def loaderC : Loader := fun s => if s = "http://ex.com/sub.json" then some subDoc else none

/-- Scenario C input: two references to the same external identifier. -/
def docC : Json := .obj [
  ("a", .obj [("$ref", .str "http://ex.com/sub.json#/t")]),
  ("b", .obj [("$ref", .str "http://ex.com/sub.json#/t")])]

/-- External document for Scenario D, with its own `definitions` map whose
key `c` collides with the root's. -/
def extDoc : Json := .obj [("definitions", .obj [("b", .num 3), ("c", .num 4)]),
  ("t", .obj [("x", .num 9)])]

/-- A world holding exactly one external document, at
`http://ex.com/defs.json`. -/
def loaderDefs : Loader := fun s => if s = "http://ex.com/defs.json" then some extDoc else none

/-- Scenario D root document: its own `definitions` map plus a reference to
the external document. -/
def rootDoc : Json := .obj [("definitions", .obj [("a", .num 1), ("c", .num 2)]),
  ("item", .obj [("$ref", .str "http://ex.com/defs.json")])]

/-- Input whose reference fragment addresses a missing path below an existing
one. -/
def docMissingNested : Json := .obj [
  ("properties", .obj [("prop1", .obj [("t", .str "v")])]),
  ("q", .obj [("$ref", .str "#/properties/nope")])]

/-- C9 input: a non-string `$ref` (a number) next to siblings that contain a
genuine reference. -/
def docNum (n : Int) : Json := .obj [("$ref", .num n),
  ("a", .obj [("$ref", .str "#/b")]), ("b", .str "target")]

/-- C9 input with an object-valued `$ref`. -/
def docNumObj : Json := .obj [("$ref", .obj [("x", .num 0)]),
  ("a", .obj [("$ref", .str "#/b")]), ("b", .str "target")]

/-- Building block for concrete `AvoidsKeys` proofs. -/
theorem AvoidsKeys.objSingle {bad : List String} {k : String} {v : Json}
    (hk : k ∉ bad) (hv : AvoidsKeys bad v) : AvoidsKeys bad (Json.obj [(k, v)]) :=
  AvoidsKeys.obj _ (fun kv hm => by rw [List.mem_singleton.1 hm]; exact hk)
    (fun kv hm => by rw [List.mem_singleton.1 hm]; exact hv)

theorem docNoRef_avoids : AvoidsKeys ["$ref", "definitions"] docNoRef :=
  .objSingle (by decide) (.objSingle (by decide) (.objSingle (by decide) (.str _)))

/-! The claims. -/

/-- C1: the spec requires a reference whose fragment-stripped URL has a scheme
other than `file` or `http(s)` to fail with a recoverable typed
`UnsupportedSchemeError`; the code instead reaches
`panic!("need url to be a file or a http based url")` (src/lib.rs line 372)
and aborts the process.  For any loader and any amount of fuel, resolving a
document whose `$ref` is an `ftp` URL produces the panic outcome, not a typed
`Error`. -/
theorem c1_unsupported_scheme_is_abort : ∀ (L : Loader) (fuel : Nat),
    derefValue L cfg0 (fuel + 1) "/wd" (Json.obj [("$ref", Json.str "ftp://example.com/x.json")]) =
      .error (.panicked "need url to be a file or a http based url") := fun _ _ => rfl

theorem c1_unsupported_scheme_is_abort_witness :
    derefValue noDocs cfg0 1 "/wd" (Json.obj [("$ref", Json.str "ftp://example.com/x.json")]) =
      .error (.panicked "need url to be a file or a http based url") :=
  c1_unsupported_scheme_is_abort noDocs 0

/-- C2 counterexample: a document containing no `$ref` anywhere is not left
unchanged by `deref_value` — a top-level `definitions` object is removed into
the accumulator and never reattached, so `{"definitions": {"a": 1}}` resolves
to `{}`. -/
theorem c2_counterexample_definitions_not_identity :
    AvoidsKeys ["$ref"] docDefsOnly ∧
    derefValue noDocs cfg0 30 "/wd" docDefsOnly =
      .ok (Json.obj [], ⟨[("file:///wd/anon.json", docDefsOnly)], [], [("a", Json.num 1)]⟩) ∧
    Json.obj [] ≠ docDefsOnly :=
  ⟨.objSingle (by decide) (.objSingle (by decide) (.num 1)), rfl, by simp [docDefsOnly]⟩

/-- C2 (amended): for every document that contains no `$ref` key and no
`definitions` key anywhere in its tree, `deref_value` leaves the document
unchanged. -/
theorem c2_no_ref_no_defs_identity (L : Loader) (cfg : Cfg) (fuel : Nat) (cwd : String)
    (v : Json) (out : Json × St)
    (hclean : AvoidsKeys ["$ref", "definitions"] v)
    (hok : derefValue L cfg fuel cwd v = .ok out) : out.1 = v := by
  have hq := derefFuel_identity L cfg fuel v ("file://" ++ cwd ++ "/anon.json") []
    { cache := alInsert ("file://" ++ cwd ++ "/anon.json") v [], loads := [], defs := [] }
    out hclean hok
  rw [hq]

theorem c2_no_ref_no_defs_identity_witness :
    ((docNoRef, (⟨[("file:///wd/anon.json", docNoRef)], [], []⟩ : St)) : Json × St).1 = docNoRef :=
  c2_no_ref_no_defs_identity noDocs cfg0 30 "/wd" docNoRef
    (docNoRef, ⟨[("file:///wd/anon.json", docNoRef)], [], []⟩) docNoRef_avoids rfl

/-- C3: resolving a document whose root is referenced through `$ref: "#"`
terminates with the same result for every sufficient amount of fuel — the
first level of recursion expands fully, and the second occurrence of the
fully-qualified reference URL `file:///wd/anon.json#` along the same call
chain is stopped by the cycle guard, leaving that node as the empty object. -/
theorem c3_root_self_ref_terminates : ∀ fuel : Nat,
    derefValue noDocs cfg0 (fuel + 20) "/wd" docRec =
      .ok (Json.obj [("properties", Json.obj [("prop1",
          Json.obj [("properties", Json.obj [("prop1", Json.obj [])])])])],
        ⟨[("file:///wd/anon.json", docRec)], [], []⟩) := fun _ => rfl

theorem c3_root_self_ref_terminates_witness :
    derefValue noDocs cfg0 20 "/wd" docRec =
      .ok (Json.obj [("properties", Json.obj [("prop1",
          Json.obj [("properties", Json.obj [("prop1", Json.obj [])])])])],
        ⟨[("file:///wd/anon.json", docRec)], [], []⟩) :=
  c3_root_self_ref_terminates 0

/-- C4, Scenario A: with no `reference_key` configured, the `$ref` in `prop2`
is replaced by the content of `#/properties/prop1`. -/
theorem c4_scenario_a :
    derefValue noDocs cfg0 30 "/wd" docA =
      .ok (Json.obj [("properties", Json.obj [
          ("prop1", Json.obj [("title", Json.str "name")]),
          ("prop2", Json.obj [("title", Json.str "name")])])],
        ⟨[("file:///wd/anon.json", docA)], [], []⟩) := rfl

/-- C5, Scenario B: with `reference_key` set to `__reference__`, the resolved
node receives the referenced content and its pre-substitution sibling content
(without the `$ref` key) is stored under `__reference__`. -/
theorem c5_scenario_b_reference_key :
    derefValue noDocs cfgRef 30 "/wd" docB =
      .ok (Json.obj [("properties", Json.obj [
          ("prop1", Json.obj [("title", Json.str "name")]),
          ("prop2", Json.obj [("__reference__", Json.obj [("title", Json.str "old_title")]),
                              ("title", Json.str "name")])])],
        ⟨[("file:///wd/anon.json", docB)], [], []⟩) := rfl

/-- C6: the Source Loader is invoked at most once per unique fragment-stripped
identifier.  First part: any completed resolution session started by
`deref_value` has a duplicate-free load log (the cache is consulted before
every load and populated after every load).  Second part, Scenario C: two
`$ref` entries naming the same external identifier cause exactly one load of
that identifier. -/
theorem c6_loader_once :
    (∀ (L : Loader) (cfg : Cfg) (fuel : Nat) (cwd : String) (v : Json) (out : Json × St),
        derefValue L cfg fuel cwd v = .ok out → out.2.loads.Nodup) ∧
    derefValue loaderC cfg0 30 "/wd" docC =
      .ok (Json.obj [("a", Json.str "x"), ("b", Json.str "x")],
        ⟨[("file:///wd/anon.json", docC), ("http://ex.com/sub.json", subDoc)],
         ["http://ex.com/sub.json"], []⟩) := by
  constructor
  · intro L cfg fuel cwd v out h
    exact (derefFuel_cacheInv L cfg fuel v _ [] _ out h
      ⟨List.nodup_nil, fun u hu => absurd hu (List.not_mem_nil u)⟩).1
  · rfl

theorem c6_loader_once_witness :
    ((⟨[("file:///wd/anon.json", docC), ("http://ex.com/sub.json", subDoc)],
      ["http://ex.com/sub.json"], []⟩ : St)).loads.Nodup :=
  c6_loader_once.1 loaderC cfg0 30 "/wd" docC _ c6_loader_once.2

/-- C7, Scenario D: the `definitions` maps of the root document and of the
referenced document are removed from their nodes and merged into one
accumulator with later occurrences overwriting earlier ones on the colliding
key `c`; `deref_file` reattaches the accumulated union under the root's
`definitions` key. -/
theorem c7_definitions_accumulated :
    derefFile loaderDefs cfg0 30 "file:///wd/base.json" rootDoc =
      .ok (Json.obj [
          ("definitions", Json.obj [("a", Json.num 1), ("b", Json.num 3), ("c", Json.num 4)]),
          ("item", Json.obj [("t", Json.obj [("x", Json.num 9)])])],
        ⟨[("file:///wd/base.json", rootDoc), ("http://ex.com/defs.json", extDoc)],
         ["http://ex.com/defs.json"],
         [("a", Json.num 1), ("b", Json.num 3), ("c", Json.num 4)]⟩) := rfl

/-- C8: a reference whose fragment does not address an existing path in the
loaded target document fails with `JsonPointerNotFound`, whose payload names
both the original reference string and the fragment; shown for a top-level
missing path and for a missing path below an existing one. -/
theorem c8_fragment_not_found_error :
    derefValue noDocs cfg0 10 "/wd" (Json.obj [("$ref", Json.str "#/nope")]) =
      .error (.err (.jsonPointerNotFound
        "ref `#/nope` can not be resolved as pointer `/nope` can not be found in the schema")) ∧
    derefValue noDocs cfg0 10 "/wd" docMissingNested =
      .error (.err (.jsonPointerNotFound
        "ref `#/properties/nope` can not be resolved as pointer `/properties/nope` can not be found in the schema")) :=
  ⟨rfl, rfl⟩

/-- C9: a map node whose `$ref` key holds a non-string value (any integer, or
an object) has the `$ref` key removed, no substitution performed and no error
raised, and the node's remaining values are still resolved. -/
theorem c9_non_string_ref_removed :
    (∀ n : Int, derefValue noDocs cfg0 30 "/wd" (docNum n) =
      .ok (Json.obj [("a", Json.str "target"), ("b", Json.str "target")],
        ⟨[("file:///wd/anon.json", docNum n)], [], []⟩)) ∧
    derefValue noDocs cfg0 30 "/wd" docNumObj =
      .ok (Json.obj [("a", Json.str "target"), ("b", Json.str "target")],
        ⟨[("file:///wd/anon.json", docNumObj)], [], []⟩) :=
  ⟨fun _ => rfl, rfl⟩

theorem c9_non_string_ref_removed_witness :
    derefValue noDocs cfg0 30 "/wd" (docNum 7) =
      .ok (Json.obj [("a", Json.str "target"), ("b", Json.str "target")],
        ⟨[("file:///wd/anon.json", docNum 7)], [], []⟩) :=
  c9_non_string_ref_removed.1 7

/-- C10: whenever the fully resolved root document is not a JSON object,
`deref_file` aborts through `as_object_mut().unwrap()` (src/lib.rs line 303)
instead of returning a typed error, because definitions reattachment
unconditionally assumes an object root. -/
theorem c10_deref_file_panics (L : Loader) (cfg : Cfg) (fuel : Nat) (url : String)
    (value : Json) (out : Json × St)
    (hok : derefFuel L cfg fuel value url []
      { cache := alInsert url value [], loads := [], defs := [] } = .ok out)
    (hno : out.1.isObj = false) :
    derefFile L cfg fuel url value =
      .error (.panicked "called Option.unwrap on a None value") := by
  obtain ⟨v, st⟩ := out
  simp only [derefFile, hok]
  cases v with
  | obj l => simp [Json.isObj] at hno
  | null => rfl
  | bool b => rfl
  | num n => rfl
  | str s => rfl
  | arr xs => rfl

theorem c10_deref_file_panics_witness :
    derefFile noDocs cfg0 5 "file:///wd/arr.json" (Json.arr []) =
      .error (.panicked "called Option.unwrap on a None value") :=
  c10_deref_file_panics noDocs cfg0 5 "file:///wd/arr.json" (Json.arr [])
    (Json.arr [], ⟨[("file:///wd/arr.json", Json.arr [])], [], []⟩) rfl rfl

end Jsonref
